import Mathlib

/-
Verification of the larix XML document-object-model library.

The development shallowly embeds the library's current module snapshot:
`src/util.rs` (tree builder `from_events`, `parse`, `stringify`),
`src/element.rs` (the `Element` struct, its traversal methods and its
`Display` implementation) and the leaf-variant rendering of `Display for
Item` in `src/item.rs`.

Modelling conventions:
- Rust `String` data is modelled by Lean `String`; event payloads and names
  are carried already decoded, so the `NonDecodable` paths of the source
  (UTF-8 decode failures) cannot arise and are elided.
- `HashMap<String, String>` attribute maps are modelled as association
  lists `List (String × String)`; the list order stands for the map's
  unspecified iteration order.
- Rust abnormal termination (an out-of-bounds index `events[i]`, or an
  explicit panic) is modelled by the distinguished outcome `crash`,
  kept apart from the recoverable `err` results.
- Rust `Vec` used as a stack (`push`/`pop` at the end) is modelled by a
  Lean list with the head as the top of the stack.
-/

/-- Build errors of the library (the `quick_xml::errors::IllFormedError`
variants produced by `from_events` in `src/util.rs`). -/
inductive Error where
  | UnmatchedEndTag (found : String)
  | MismatchedEndTag (expected found : String)
deriving DecidableEq, Repr

/-- Lexical tokens, the `quick_xml::events::Event` variants consumed by
`from_events` (spec section 4.1 interface). -/
inductive Event where
  | Start (name : String) (attrs : List (String × String))
  | End (name : String)
  | Empty (name : String) (attrs : List (String × String))
  | Text (payload : String)
  | Comment (payload : String)
  | CData (payload : String)
  | DocType (payload : String)
  | Decl (payload : String)
  | PI (payload : String)
  | Eof
deriving DecidableEq, Repr

/-- Tree nodes: the `Item` enum of the current snapshot, with the
`Element` struct's four fields inlined into the `Element` constructor
(name, attributes, children, self_closing). -/
inductive Item where
  | Element (name : String) (attributes : List (String × String))
      (children : List Item) (self_closing : Bool)
  | Comment (payload : String)
  | Text (payload : String)
  | DocType (payload : String)
  | CData (payload : String)
  | Decl (payload : String)
  | PI (payload : String)

/-- The `Element` struct of `src/element.rs`. -/
structure Element where
  name : String
  attributes : List (String × String)
  children : List Item
  self_closing : Bool

/-- View of an `Element` struct as an `Item`. -/
def Element.toItem (el : Element) : Item :=
  Item.Element el.name el.attributes el.children el.self_closing

/-- `Element::new` of `src/element.rs`. -/
def Element.new (name : String) : Element :=
  ⟨name, [], [], false⟩

/-- Outcome of the whole tree build: `Ok(Vec<Item>)`, `Err(Error)`, or
abnormal termination (`crash` models a Rust panic, in particular the
unchecked `events[i]` index going out of bounds). -/
inductive BuildResult where
  | ok (items : List Item)
  | err (e : Error)
  | crash

/-- Outcome of the inner matching-`End` scan loop of `from_events`
(`src/util.rs` lines 111-150): the nested events strictly between the
`Start` and its matching `End` together with the events after that `End`,
or an error, or a crash (`events[i]` out of bounds). -/
inductive ScanOut where
  | ok (nested : List Event) (rest : List Event)
  | err (e : Error)
  | crash
deriving DecidableEq, Repr

/-- `nested_events.push(events[i])`, lifted over the scan outcome: the
current event is prepended to the nested events being collected. -/
def with_nested (ev : Event) : ScanOut → ScanOut
  | .ok nested rest => .ok (ev :: nested) rest
  | out => out

/-- The inner loop of the `Event::Start` branch of `from_events`
(`src/util.rs` lines 111-150).  `names` is the stack of open start names
(head = top).  Each iteration advances `i` and reads `events[i]` (crash
when past the end), pushes on `Start`, pops and compares on `End`
(`UnmatchedEndTag` on an empty stack, `MismatchedEndTag` on a name
mismatch), breaks as soon as the stack is empty, and otherwise records the
event into `nested_events`.  In the `Start` branch the stack was just
pushed and is never empty, so the loop always continues there. -/
def scan : List String → List Event → ScanOut
  | _, [] => ScanOut.crash
  | names, ev :: rest =>
    match ev with
    | .Start n _ => with_nested ev (scan (n :: names) rest)
    | .End n =>
      match names with
      | [] => ScanOut.err (Error.UnmatchedEndTag n)
      | top :: names' =>
        if top ≠ n then ScanOut.err (Error.MismatchedEndTag top n)
        else
          match names' with
          | [] => ScanOut.ok [] rest
          | _ :: _ => with_nested ev (scan names' rest)
    | _ =>
      match names with
      | [] => ScanOut.ok [] rest
      | _ :: _ => with_nested ev (scan names rest)

/-- `children.push(item)` lifted over the build outcome. -/
def push_item (it : Item) : BuildResult → BuildResult
  | .ok items => .ok (it :: items)
  | r => r

theorem with_nested_ok {ev : Event} {out : ScanOut} {nested rest : List Event}
    (h : with_nested ev out = ScanOut.ok nested rest) :
    ∃ nested', out = ScanOut.ok nested' rest ∧ nested = ev :: nested' := by
  cases out with
  | ok n' r' =>
    simp only [with_nested, ScanOut.ok.injEq] at h
    exact ⟨n', by rw [h.2], h.1.symm⟩
  | err e => simp [with_nested] at h
  | crash => simp [with_nested] at h

/-- A successful scan consumed the matching `End`: the nested events plus
the remaining events account for all scanned events but that one. -/
theorem scan_ok_len :
    ∀ (evs : List Event) (names : List String) (nested rest : List Event),
      scan names evs = ScanOut.ok nested rest →
      nested.length + rest.length + 1 = evs.length := by
  intro evs
  induction evs with
  | nil => intro names nested rest h; simp [scan] at h
  | cons ev tl ih =>
    intro names nested rest h
    cases ev
    case Start n a =>
      simp only [scan] at h
      obtain ⟨nested', hs, hn⟩ := with_nested_ok h
      have := ih _ _ _ hs
      subst hn
      simp only [List.length_cons]
      omega
    case End n =>
      cases names with
      | nil => simp [scan] at h
      | cons top names' =>
        cases names' with
        | nil =>
          simp only [scan] at h
          split at h
          · simp at h
          · injection h with h1 h2
            subst h1; subst h2
            simp
        | cons m ms =>
          simp only [scan] at h
          split at h
          · simp at h
          · obtain ⟨nested', hs, hn⟩ := with_nested_ok h
            have := ih _ _ _ hs
            subst hn
            simp only [List.length_cons]
            omega
    all_goals {
      cases names with
      | nil =>
        simp only [scan] at h
        injection h with h1 h2
        subst h1; subst h2
        simp
      | cons x xs =>
        simp only [scan] at h
        obtain ⟨nested', hs, hn⟩ := with_nested_ok h
        have := ih _ _ _ hs
        subst hn
        simp only [List.length_cons]
        omega
    }

/-- The tree builder `from_events` of `src/util.rs` (lines 36-176).  Leaf
events map 1:1 to nodes; `Empty` maps to a childless self-closing element;
`Start` scans for its matching `End`, recursively builds the nested events
into the element's children and resumes after the matched `End`; a
top-level `End` fails with `UnmatchedEndTag`; an `Eof` event hits the
internal-error panic. -/
def from_events (evs : List Event) : BuildResult :=
  match evs with
  | [] => .ok []
  | .Text s :: rest => push_item (.Text s) (from_events rest)
  | .Comment s :: rest => push_item (.Comment s) (from_events rest)
  | .DocType s :: rest => push_item (.DocType s) (from_events rest)
  | .CData s :: rest => push_item (.CData s) (from_events rest)
  | .Decl s :: rest => push_item (.Decl s) (from_events rest)
  | .PI s :: rest => push_item (.PI s) (from_events rest)
  | .Empty n a :: rest => push_item (.Element n a [] true) (from_events rest)
  | .Start n a :: rest =>
    (match h : scan [n] rest with
     | .crash => .crash
     | .err e => .err e
     | .ok nested after =>
       match from_events nested with
       | .crash => .crash
       | .err e => .err e
       | .ok cs => push_item (.Element n a cs false) (from_events after))
  | .End n :: _ => .err (.UnmatchedEndTag n)
  | .Eof :: _ => .crash
termination_by evs.length
decreasing_by
  all_goals simp only [List.length_cons]
  all_goals try omega
  all_goals { have hl := scan_ok_len _ _ _ _ h; omega }

/-- Attribute rendering shared by `get_start_tag` (`src/element.rs` lines
154-162): each attribute renders as a space, the key, `="`, the value and
a closing quote, in the map's iteration order (the list order). -/
def attrs_string (attrs : List (String × String)) : String :=
  attrs.foldl (fun acc kv => acc ++ " " ++ kv.1 ++ "=\"" ++ kv.2 ++ "\"") ""

/-- `get_start_tag` of `src/element.rs`. -/
def get_start_tag (name : String) (attrs : List (String × String)) : String :=
  "<" ++ name ++ attrs_string attrs ++ ">"

/-- `get_end_tag` of `src/element.rs`. -/
def get_end_tag (name : String) : String :=
  "</" ++ name ++ ">"

/-- Rust `str.insert_str(str.len() - 1, " /")` on the start tag
(`src/element.rs` line 139): the two characters " /" are inserted right
before the final character (the closing `>` of the start tag, a one-byte
character, so the byte index `len - 1` is exactly the position before the
last character). -/
def insert_self_close (s : String) : String :=
  String.mk (s.data.dropLast) ++ " /" ++ String.mk (s.data.drop (s.data.length - 1))

mutual

/-- `Display` for one node: the `Element` arm is `impl Display for
Element` of `src/element.rs` (lines 135-152), the leaf arms are the
corresponding arms of `impl Display for Item` in `src/item.rs` (lines
204-219). -/
def Item.render : Item → String
  | .Element n a cs sc =>
    if sc then insert_self_close (get_start_tag n a)
    else get_start_tag n a ++ Item.render_list cs ++ get_end_tag n
  | .Text s => s
  | .Comment c => "<!--" ++ c ++ "-->"
  | .DocType d => "<!DOCTYPE " ++ d ++ ">"
  | .CData c => "<![CDATA[" ++ c ++ "]]>"
  | .Decl d => "<?" ++ d ++ "?>"
  | .PI p => "<?" ++ p ++ "?>"

/-- Concatenation of the renderings of a list of nodes, the recursive
companion of `Item.render` (the loop of `stringify` restated by recursion
on the list; string append is associative, so the two agree —
`stringify_eq_render_list` below). -/
def Item.render_list : List Item → String
  | [] => ""
  | it :: rest => Item.render it ++ Item.render_list rest

end

/-- `stringify` of `src/util.rs` (lines 16-22): start from the empty
string and push each item's rendering in order. -/
def stringify (xml : List Item) : String :=
  xml.foldl (fun acc it => acc ++ Item.render it) ""

/-- `Element`'s own `Display` (`src/element.rs` lines 135-152). -/
def Element.render (el : Element) : String :=
  if el.self_closing then insert_self_close (get_start_tag el.name el.attributes)
  else get_start_tag el.name el.attributes ++ stringify el.children
    ++ get_end_tag el.name

/-- The recursive engine of `Element::find_descendants` (`src/element.rs`
lines 47-62) applied to a children list: the method first collects the
direct children matching the predicate, then for each child that is an
element appends that child's own `find_descendants` result (which is
again filter-then-recurse on its children). -/
def find_rest (p : Item → Bool) : List Item → List Item
  | [] => []
  | .Element _ _ cs _ :: rest => (cs.filter p ++ find_rest p cs) ++ find_rest p rest
  | _ :: rest => find_rest p rest

/-- `Element::find_descendants` of `src/element.rs` (lines 47-62). -/
def Element.find_descendants (el : Element) (p : Item → Bool) : List Item :=
  el.children.filter p ++ find_rest p el.children

/-- The loop of `Element::get_text_content` (`src/element.rs` lines
69-85) on a children list: `Text` pushes its payload, `Element` pushes
its recursive text content, every other variant contributes nothing. -/
def text_content : List Item → String
  | [] => ""
  | .Text s :: rest => s ++ text_content rest
  | .Element _ _ cs _ :: rest => text_content cs ++ text_content rest
  | _ :: rest => text_content rest

/-- `Element::get_text_content` of `src/element.rs`. -/
def Element.get_text_content (el : Element) : String :=
  text_content el.children

/-- `Element::get_child_elements` of `src/element.rs` (lines 88-99):
direct children that are elements, in order. -/
def child_elements : List Item → List Element
  | [] => []
  | .Element n a cs sc :: rest => ⟨n, a, cs, sc⟩ :: child_elements rest
  | _ :: rest => child_elements rest

/-- `.reduce(|acc, curr| acc.append(curr)).unwrap_or(Vec::new())` of
`src/element.rs` lines 127-131. -/
def reduce_append : List (List Item) → List Item
  | [] => []
  | x :: xs => xs.foldl (fun acc curr => acc ++ curr) x

mutual

/-- `Element::get_decendants_at_depth` (`src/element.rs` lines 111-132)
on a children list.  Depth 0 is the `panic!("Depth cannot be zero.")`
precondition violation, modelled as `none` (no `Result` error is
involved); depth 1 returns the children themselves; greater depths
filter-map the recursive call over the element children and reduce by
append.  The `Option` threads a panic outward, though the recursive
calls are always at depth ≥ 1 and never panic. -/
def decendants_at_depth : Nat → List Item → Option (List Item)
  | 0, _ => none
  | 1, cs => some cs
  | d+2, cs => (decendants_children (d+1) cs).map reduce_append

/-- The `filter_map` of `get_decendants_at_depth`: the recursive results
of the element children, in child order (non-elements are skipped). -/
def decendants_children : Nat → List Item → Option (List (List Item))
  | _, [] => some []
  | d, .Element _ _ cs _ :: rest =>
    match decendants_at_depth d cs, decendants_children d rest with
    | some r, some rs => some (r :: rs)
    | _, _ => none
  | d, _ :: rest => decendants_children d rest

end

/-- `Element::get_decendants_at_depth` of `src/element.rs`. -/
def Element.get_decendants_at_depth (el : Element) (depth : Nat) :
    Option (List Item) :=
  decendants_at_depth depth el.children

mutual

/-- Total restatement of the depth query for depths ≥ 1, following the
spec wording: depth 1 yields the direct children; depth ≥ 2 yields the
concatenation, in child order, of the depth-1 results of the element
children; non-element children contribute nothing. -/
def depth_spec : Nat → List Item → List Item
  | 0, _ => []
  | 1, cs => cs
  | d+2, cs => depth_spec_list (d+1) cs

/-- Concatenation of `depth_spec d` over the element children. -/
def depth_spec_list : Nat → List Item → List Item
  | _, [] => []
  | d, .Element _ _ cs _ :: rest => depth_spec d cs ++ depth_spec_list d rest
  | d, _ :: rest => depth_spec_list d rest

end

/-- Whether every element carrying `self_closing = true` anywhere in the
list has an empty children vector (claim invariant, recursive over the
whole forest). -/
def self_closing_ok : List Item → Bool
  | [] => true
  | .Element _ _ cs sc :: rest =>
    (!sc || cs.isEmpty) && self_closing_ok cs && self_closing_ok rest
  | _ :: rest => self_closing_ok rest

/-- Well-matched event sequences: running the stack of open start names
over the whole sequence, every `End` matches the top of the stack, the
stack is empty at the end, and no `Eof` occurs.  This is the condition
under which the builder's scans never run past the end of the input. -/
def matched_from (stk : List String) : List Event → Bool
  | [] => stk.isEmpty
  | .Start n _ :: rest => matched_from (n :: stk) rest
  | .End n :: rest =>
    match stk with
    | [] => false
    | top :: stk' => (top == n) && matched_from stk' rest
  | .Eof :: _ => false
  | _ :: rest => matched_from stk rest

/-- Modelled from the spec: the external tokenizer (the `quick_xml`
`Reader` driven by `get_all_events` in `src/util.rs`, excluded from the
core by spec section 1 and described by interface in section 4.1).  It is
given here by the token sequences that section 4.1 assigns to the spec's
example documents; other inputs are mapped to the empty sequence. -/
def tokenize (s : String) : List Event :=
  if s = "abc" then [.Text "abc"]
  else if s = "<![CDATA[abcxyz]]>" then [.CData "abcxyz"]
  else if s = "<a />" then [.Empty "a" []]
  else if s = "<a>" then [.Start "a" []]
  else if s = "<a></a>" then [.Start "a" [], .End "a"]
  else if s = "<a></b>" then [.Start "a" [], .End "b"]
  else if s = "</a>" then [.End "a"]
  else if s = "<a><b><c></c></b><c></c></a>" then
    [.Start "a" [], .Start "b" [], .Start "c" [], .End "c", .End "b",
     .Start "c" [], .End "c", .End "a"]
  else if s = "<element><a/><b><a/></b></element>" then
    [.Start "element" [], .Empty "a" [], .Start "b" [], .Empty "a" [],
     .End "b", .End "element"]
  else []

/-- `parse` of `src/util.rs` (lines 30-34): tokenize, then build. -/
def parse (s : String) : BuildResult :=
  from_events (tokenize s)

/-- Predicate of the `find_descendants` example: the item is an element
with tag name "a". -/
def is_element_named_a : Item → Bool
  | .Element n _ _ _ => n == "a"
  | _ => false

/-- The payloads of every `Text` node in a forest, in depth-first document
order: recursion enters `Element` children; all other variants contribute
nothing. -/
def text_payloads : List Item → List String
  | [] => []
  | .Text s :: rest => s :: text_payloads rest
  | .Element _ _ cs _ :: rest => text_payloads cs ++ text_payloads rest
  | _ :: rest => text_payloads rest

theorem string_mk_data (s : String) : String.mk s.data = s := by
  cases s; rfl

theorem string_data_append (s t : String) : (s ++ t).data = s.data ++ t.data := by
  cases s; cases t; rfl

theorem str_foldl_join :
    ∀ (g : List String) (acc : String),
      g.foldl (fun a b => a ++ b) acc = acc ++ String.join g := by
  intro g
  induction g with
  | nil => intro acc; simp [String.join]
  | cons s g ih =>
    intro acc
    have hj : String.join (s :: g) = s ++ String.join g := by
      show (s :: g).foldl (fun a b => a ++ b) "" = _
      simp only [List.foldl_cons]
      rw [ih ("" ++ s)]
      simp
    rw [hj, List.foldl_cons, ih (acc ++ s), String.append_assoc]

theorem string_join_append (l1 l2 : List String) :
    String.join (l1 ++ l2) = String.join l1 ++ String.join l2 := by
  show (l1 ++ l2).foldl (fun a b => a ++ b) "" = _
  rw [List.foldl_append]
  rw [str_foldl_join l2 (l1.foldl (fun a b => a ++ b) "")]
  congr 1

theorem string_join_cons (s : String) (l : List String) :
    String.join (s :: l) = s ++ String.join l := by
  show (s :: l).foldl (fun a b => a ++ b) "" = _
  rw [List.foldl_cons, str_foldl_join]
  rfl

theorem stringify_eq_join (xs : List Item) :
    stringify xs = String.join (xs.map Item.render) := by
  show xs.foldl (fun acc it => acc ++ Item.render it) "" = _
  rw [← List.foldl_map Item.render (fun a b => a ++ b) xs ""]
  rw [str_foldl_join]
  rfl

theorem render_list_eq_join :
    ∀ (xs : List Item), Item.render_list xs = String.join (xs.map Item.render) := by
  intro xs
  induction xs with
  | nil => simp [Item.render_list, String.join]
  | cons it rest ih =>
    rw [List.map_cons, string_join_cons, ← ih]
    simp [Item.render_list]

theorem stringify_eq_render_list (xs : List Item) :
    stringify xs = Item.render_list xs := by
  rw [stringify_eq_join, render_list_eq_join]

theorem insert_self_close_append (s : String) :
    insert_self_close (s ++ ">") = s ++ " />" := by
  have hd : (s ++ ">").data = s.data ++ ['>'] := by
    rw [string_data_append]
  rw [insert_self_close, hd]
  rw [List.dropLast_concat]
  have hlen : (s.data ++ ['>']).length - 1 = s.data.length := by
    simp
  rw [hlen, List.drop_left]
  rw [string_mk_data]
  rw [String.append_assoc]
  rfl

theorem insert_self_close_start_tag (n : String) (a : List (String × String)) :
    insert_self_close (get_start_tag n a) = "<" ++ n ++ attrs_string a ++ " />" := by
  have : get_start_tag n a = ("<" ++ n ++ attrs_string a) ++ ">" := rfl
  rw [this, insert_self_close_append]

theorem find_rest_eq (p : Item → Bool) :
    ∀ (cs : List Item),
      find_rest p cs = (cs.map (fun it =>
        match it with
        | Item.Element _ _ cs' _ => cs'.filter p ++ find_rest p cs'
        | _ => [])).flatten := by
  intro cs
  induction cs with
  | nil => simp [find_rest]
  | cons it rest ih =>
    cases it
    case Element n a cs' sc => simp [find_rest, ih]
    all_goals simp [find_rest, ih]

theorem text_content_join :
    ∀ (cs : List Item), text_content cs = String.join (text_payloads cs) := by
  intro cs
  induction cs using text_content.induct with
  | case1 => simp [text_content, text_payloads, String.join]
  | case2 s rest ih =>
    simp only [text_content, text_payloads]
    rw [string_join_cons, ih]
  | case3 n a cs' sc rest ih1 ih2 =>
    simp only [text_content, text_payloads]
    rw [string_join_append, ih1, ih2]
  | case4 it rest h1 h2 ih =>
    cases it
    case Element n a cs' sc => exact absurd rfl (h2 n a cs' sc)
    case Text s => exact absurd rfl (h1 s)
    all_goals simp [text_content, text_payloads, ih]

theorem foldl_append_flatten :
    ∀ (xs : List (List Item)) (x : List Item),
      xs.foldl (fun acc curr => acc ++ curr) x = x ++ xs.flatten := by
  intro xs
  induction xs with
  | nil => intro x; simp
  | cons y ys ih => intro x; simp [ih, List.append_assoc]

theorem reduce_append_eq_flatten (l : List (List Item)) :
    reduce_append l = l.flatten := by
  cases l with
  | nil => rfl
  | cons x xs => simp [reduce_append, foldl_append_flatten]

theorem push_item_ok {it : Item} {r : BuildResult} {items : List Item}
    (h : push_item it r = BuildResult.ok items) :
    ∃ items', r = BuildResult.ok items' ∧ items = it :: items' := by
  cases r with
  | ok l =>
    simp only [push_item, BuildResult.ok.injEq] at h
    exact ⟨l, rfl, h.symm⟩
  | err e => simp [push_item] at h
  | crash => simp [push_item] at h

/-- Depth query refinement: at every depth ≥ 1 the method never panics and
returns exactly the total specification `depth_spec`. -/
theorem decendants_at_depth_spec :
    ∀ (d : Nat) (cs : List Item),
      decendants_at_depth (d+1) cs = some (depth_spec (d+1) cs) := by
  intro d
  induction d with
  | zero => intro cs; simp [decendants_at_depth, depth_spec]
  | succ d ih =>
    intro cs
    have hch : ∀ (l : List Item), ∃ parts,
        decendants_children (d+1) l = some parts ∧
        parts.flatten = depth_spec_list (d+1) l := by
      intro l
      induction l with
      | nil => exact ⟨[], by simp [decendants_children], by simp [depth_spec_list]⟩
      | cons it rest ihl =>
        obtain ⟨parts, hp, hf⟩ := ihl
        cases it
        case Element n a cs' sc =>
          refine ⟨depth_spec (d+1) cs' :: parts, ?_, ?_⟩
          · simp [decendants_children, ih cs', hp]
          · simp [hf, depth_spec_list]
        all_goals {
          refine ⟨parts, ?_, ?_⟩
          · simp [decendants_children, hp]
          · simp [depth_spec_list, hf]
        }
    obtain ⟨parts, hp, hf⟩ := hch cs
    show decendants_at_depth (d+2) cs = some (depth_spec (d+2) cs)
    rw [decendants_at_depth, depth_spec, hp]
    simp [reduce_append_eq_flatten, hf]

theorem depth_spec_list_eq (d : Nat) :
    ∀ (cs : List Item),
      depth_spec_list d cs = (cs.map (fun it =>
        match it with
        | Item.Element _ _ cs' _ => depth_spec d cs'
        | _ => [])).flatten := by
  intro cs
  induction cs with
  | nil => simp [depth_spec_list]
  | cons it rest ih =>
    cases it
    case Element n a cs' sc => simp [depth_spec_list, ih]
    all_goals simp [depth_spec_list, ih]

/-- On a well-matched suffix the scan loop never runs out of input: it
finds the matching `End` of the innermost open `Start`, the collected
nested events are themselves well matched relative to the still-open outer
names, and the remainder after the matching `End` is well matched. -/
theorem scan_matched :
    ∀ (evs : List Event) (top : String) (stk : List String),
      matched_from (top :: stk) evs = true →
      ∃ nested after, scan (top :: stk) evs = ScanOut.ok nested after ∧
        matched_from ((top :: stk).dropLast) nested = true ∧
        matched_from [] after = true := by
  intro evs
  induction evs with
  | nil => intro top stk h; simp [matched_from] at h
  | cons ev tl ih =>
    intro top stk h
    cases ev
    case Start n a =>
      simp only [matched_from] at h
      obtain ⟨nested, after, hs, hn, ha⟩ := ih n (top :: stk) h
      refine ⟨Event.Start n a :: nested, after, ?_, ?_, ha⟩
      · simp only [scan, hs, with_nested]
      · have hdl : (n :: top :: stk).dropLast = n :: (top :: stk).dropLast := rfl
        rw [hdl] at hn
        simpa [matched_from] using hn
    case End n =>
      simp only [matched_from] at h
      rw [Bool.and_eq_true] at h
      obtain ⟨htop, hrest⟩ := h
      have htn : top = n := by simpa using htop
      cases stk with
      | nil =>
        refine ⟨[], tl, ?_, by simp [matched_from], hrest⟩
        simp only [scan, htn]
        simp
      | cons s1 s2 =>
        obtain ⟨nested, after, hs, hn, ha⟩ := ih s1 s2 hrest
        refine ⟨Event.End n :: nested, after, ?_, ?_, ha⟩
        · simp only [scan, htn]
          simp only [ne_eq, not_true_eq_false, if_false, ite_false]
          simp [hs, with_nested]
        · have hdl : (top :: s1 :: s2).dropLast = top :: (s1 :: s2).dropLast := rfl
          rw [hdl]
          simp only [matched_from]
          rw [Bool.and_eq_true]
          exact ⟨by simpa using htn, hn⟩
    case Eof => simp [matched_from] at h
    all_goals {
      simp only [matched_from] at h
      obtain ⟨nested, after, hs, hn, ha⟩ := ih top stk h
      simp only [scan, hs, with_nested]
      exact ⟨_, after, rfl, by simpa [matched_from] using hn, ha⟩
    }

/-- Unfolding of the `Start` branch of `from_events` when the scan found
the matching `End`. -/
theorem from_events_start (n : String) (a : List (String × String))
    (rest nested after : List Event)
    (hs : scan [n] rest = ScanOut.ok nested after) :
    from_events (Event.Start n a :: rest) =
      match from_events nested with
      | BuildResult.crash => BuildResult.crash
      | BuildResult.err e => BuildResult.err e
      | BuildResult.ok cs =>
        push_item (Item.Element n a cs false) (from_events after) := by
  simp only [from_events]
  split
  · rename_i heq
    rw [hs] at heq
    simp at heq
  · rename_i heq
    rw [hs] at heq
    simp at heq
  · rename_i nested' after' heq
    rw [hs] at heq
    injection heq with h1 h2
    subst h1; subst h2
    rfl

/-- Unfolding of the `Start` branch when the scan failed with an error. -/
theorem from_events_start_err (n : String) (a : List (String × String))
    (rest : List Event) (e : Error) (hs : scan [n] rest = ScanOut.err e) :
    from_events (Event.Start n a :: rest) = BuildResult.err e := by
  simp only [from_events]
  split
  · rename_i heq
    rw [hs] at heq
    simp at heq
  · rename_i e' heq
    rw [hs] at heq
    injection heq with h1
    subst h1
    rfl
  · rename_i nested' after' heq
    rw [hs] at heq
    simp at heq

/-- Unfolding of the `Start` branch when the scan ran out of input. -/
theorem from_events_start_crash (n : String) (a : List (String × String))
    (rest : List Event) (hs : scan [n] rest = ScanOut.crash) :
    from_events (Event.Start n a :: rest) = BuildResult.crash := by
  simp only [from_events]
  split
  · rfl
  · rename_i heq
    rw [hs] at heq
    simp at heq
  · rename_i nested' after' heq
    rw [hs] at heq
    simp at heq

/-- On a well-matched event sequence the builder succeeds: no error and no
out-of-bounds access. -/
theorem from_events_matched_ok :
    ∀ (N : Nat) (evs : List Event), evs.length ≤ N →
      matched_from [] evs = true →
      ∃ items, from_events evs = BuildResult.ok items := by
  intro N
  induction N with
  | zero =>
    intro evs hle _
    have hnil : evs = [] := List.eq_nil_of_length_eq_zero (Nat.le_zero.mp hle)
    subst hnil
    exact ⟨[], by simp [from_events]⟩
  | succ N ih =>
    intro evs hle h
    cases evs with
    | nil => exact ⟨[], by simp [from_events]⟩
    | cons ev tl =>
      have htl : tl.length ≤ N := by
        simp only [List.length_cons] at hle; omega
      cases ev
      case Start n a =>
        simp only [matched_from] at h
        obtain ⟨nested, after, hs, hn, ha⟩ := scan_matched tl n [] h
        have hlen := scan_ok_len tl [n] nested after hs
        have h1 : nested.length ≤ N := by omega
        have h2 : after.length ≤ N := by omega
        obtain ⟨cs, hcs⟩ := ih nested h1 (by simpa using hn)
        obtain ⟨itemsAfter, hafter⟩ := ih after h2 ha
        refine ⟨Item.Element n a cs false :: itemsAfter, ?_⟩
        rw [from_events_start n a tl nested after hs, hcs, hafter]
        rfl
      case End n => simp [matched_from] at h
      case Eof => simp [matched_from] at h
      all_goals {
        simp only [matched_from] at h
        obtain ⟨items, hi⟩ := ih tl htl h
        simp only [from_events, hi, push_item]
        exact ⟨_, rfl⟩
      }

/-- Invariant of every successful build: any element carrying
`self_closing = true`, at any depth of the returned forest, has empty
children (only the `Empty` branch sets the flag, and it always supplies
`Vec::new()`). -/
theorem from_events_self_closing_aux :
    ∀ (N : Nat) (evs : List Event) (items : List Item), evs.length ≤ N →
      from_events evs = BuildResult.ok items →
      self_closing_ok items = true := by
  intro N
  induction N with
  | zero =>
    intro evs items hle h
    have hnil : evs = [] := List.eq_nil_of_length_eq_zero (Nat.le_zero.mp hle)
    subst hnil
    simp only [from_events, BuildResult.ok.injEq] at h
    subst h
    simp [self_closing_ok]
  | succ N ih =>
    intro evs items hle h
    cases evs with
    | nil =>
      simp only [from_events, BuildResult.ok.injEq] at h
      subst h
      simp [self_closing_ok]
    | cons ev tl =>
      have htl : tl.length ≤ N := by
        simp only [List.length_cons] at hle; omega
      cases ev
      case Start n a =>
        cases hs : scan [n] tl with
        | crash => rw [from_events_start_crash n a tl hs] at h; simp at h
        | err e => rw [from_events_start_err n a tl e hs] at h; simp at h
        | ok nested after =>
          rw [from_events_start n a tl nested after hs] at h
          have hlen := scan_ok_len tl [n] nested after hs
          cases hnested : from_events nested with
          | crash => rw [hnested] at h; simp at h
          | err e => rw [hnested] at h; simp at h
          | ok cs =>
            rw [hnested] at h
            simp only at h
            obtain ⟨items', hafter, hitems⟩ := push_item_ok h
            subst hitems
            have hcs := ih nested cs (by omega) hnested
            have hrest := ih after items' (by omega) hafter
            simp [self_closing_ok, hcs, hrest]
      case End n => simp [from_events] at h
      case Eof => simp [from_events] at h
      case Empty n a =>
        simp only [from_events] at h
        obtain ⟨items', hrest, hitems⟩ := push_item_ok h
        subst hitems
        have := ih tl items' htl hrest
        simp [self_closing_ok, this]
      all_goals {
        simp only [from_events] at h
        obtain ⟨items', hrest, hitems⟩ := push_item_ok h
        subst hitems
        have := ih tl items' htl hrest
        simp [self_closing_ok, this]
      }

/-- Children of the root element of the nesting example document
`<a><b><c></c></b><c></c></a>`. -/
def nested_children : List Item :=
  [Item.Element "b" [] [Item.Element "c" [] [] false] false,
   Item.Element "c" [] [] false]

/-- Children of the root element of the find-descendants example document
`<element><a/><b><a/></b></element>`. -/
def find_children : List Item :=
  [Item.Element "a" [] [] true,
   Item.Element "b" [] [Item.Element "a" [] [] true] false]

/-- C1: during tree building, an `End` token whose name differs from the
name popped from the stack of open `Start` names (the innermost open
element) fails the build with `MismatchedEndTag{expected = popped name,
found = end name}`; in particular `parse "<a></b>"` returns exactly
`MismatchedEndTag{expected:"a", found:"b"}`. -/
theorem C1_mismatched_end_tag :
    (∀ (top n : String) (stk : List String) (rest : List Event), top ≠ n →
      scan (top :: stk) (Event.End n :: rest)
        = ScanOut.err (Error.MismatchedEndTag top n)) ∧
    (∀ (a b : String) (attrs : List (String × String)) (rest : List Event),
      a ≠ b →
      from_events (Event.Start a attrs :: Event.End b :: rest)
        = BuildResult.err (Error.MismatchedEndTag a b)) ∧
    parse "<a></b>" = BuildResult.err (Error.MismatchedEndTag "a" "b") := by
  refine ⟨?_, ?_, ?_⟩
  · intro top n stk rest hne
    simp [scan, hne]
  · intro a b attrs rest hne
    have hs : scan [a] (Event.End b :: rest)
        = ScanOut.err (Error.MismatchedEndTag a b) := by
      simp [scan, hne]
    exact from_events_start_err a attrs _ _ hs
  · show from_events [Event.Start "a" [], Event.End "b"] = _
    exact from_events_start_err "a" [] _ _ (by decide)

/-- Witness for C1 at a concrete input. -/
theorem C1_mismatched_end_tag_witness :
    scan ["x"] [Event.End "y"] = ScanOut.err (Error.MismatchedEndTag "x" "y") :=
  C1_mismatched_end_tag.1 "x" "y" [] [] (by decide)

/-- C2: an `End` token encountered while no element is open (empty
open-name stack, in particular at the top level) fails the build with
`UnmatchedEndTag{found}` — never dropped, never a leaf node; in
particular `parse "</a>"` fails with `UnmatchedEndTag("a")`. -/
theorem C2_unmatched_end_tag :
    (∀ (n : String) (rest : List Event),
      from_events (Event.End n :: rest)
        = BuildResult.err (Error.UnmatchedEndTag n)) ∧
    (∀ (n : String) (rest : List Event),
      scan [] (Event.End n :: rest) = ScanOut.err (Error.UnmatchedEndTag n)) ∧
    parse "</a>" = BuildResult.err (Error.UnmatchedEndTag "a") := by
  refine ⟨?_, ?_, ?_⟩
  · intro n rest
    simp [from_events]
  · intro n rest
    simp [scan]
  · show from_events [Event.End "a"] = _
    simp [from_events]

/-- C3: an `Empty(name, attrs)` token maps directly, with no recursion,
to `Element{name, attributes: attrs, children: [], self_closing: true}`;
and in every node list returned successfully by the tree builder, every
element with `self_closing = true` has an empty children vector. -/
theorem C3_empty_element :
    (∀ (n : String) (a : List (String × String)) (rest : List Event)
      (items : List Item),
      from_events rest = BuildResult.ok items →
      from_events (Event.Empty n a :: rest)
        = BuildResult.ok (Item.Element n a [] true :: items)) ∧
    (∀ (evs : List Event) (items : List Item),
      from_events evs = BuildResult.ok items →
      self_closing_ok items = true) := by
  constructor
  · intro n a rest items h
    simp [from_events, h, push_item]
  · intro evs items h
    exact from_events_self_closing_aux evs.length evs items le_rfl h

/-- Witness for C3 at a concrete input. -/
theorem C3_empty_element_witness :
    from_events [Event.Empty "a" []]
      = BuildResult.ok [Item.Element "a" [] [] true] ∧
    self_closing_ok [Item.Element "a" [] [] true] = true := by
  constructor
  · exact C3_empty_element.1 "a" [] [] [] (by simp [from_events])
  · exact C3_empty_element.2 [Event.Empty "a" []] [Item.Element "a" [] [] true]
      (C3_empty_element.1 "a" [] [] [] (by simp [from_events]))

/-- C4 (amended): `from_events` (total in this model) returns `Ok` on
every well-matched event sequence — every `Start` closed by its matching
`End`, no `Eof` — with no out-of-bounds access; the original claim that
it never goes out of bounds on arbitrary sequences is refuted by
`C4_counterexample`. -/
theorem C4_matched_builds (evs : List Event)
    (h : matched_from [] evs = true) :
    ∃ items, from_events evs = BuildResult.ok items :=
  from_events_matched_ok evs.length evs le_rfl h

/-- C4 counterexample: on the token sequence of `"<a>"` — a `Start` whose
matching `End` never occurs — the builder's scan runs past the end of the
sequence (`events[i]` out of bounds): the outcome is the crash, not an
error value. -/
theorem C4_counterexample :
    from_events [Event.Start "a" []] = BuildResult.crash :=
  from_events_start_crash "a" [] [] (by decide)

/-- Witness for C4 at a concrete input. -/
theorem C4_matched_builds_witness :
    ∃ items, from_events [Event.Start "a" [], Event.End "a"]
      = BuildResult.ok items :=
  C4_matched_builds [Event.Start "a" [], Event.End "a"] (by decide)

/-- C5: `get_decendants_at_depth` on an element: depth 0 is the fatal
precondition violation (the panic, modelled `none`, not a recoverable
error); depth 1 is exactly the direct children in order, unfiltered;
depth > 1 is the concatenation, in child order, of the depth-(d-1)
results over the element children, non-elements contributing nothing
(`depth_spec`/`depth_spec_list` restate that recursion totally and the
method provably returns them under `some`); on the tree parsed from
`"<a><b><c></c></b><c></c></a>"` the root's result at depth 1 has length
2 and at depth 2 has length 1. -/
theorem C5_descendants_at_depth :
    (∀ el : Element, el.get_decendants_at_depth 0 = none) ∧
    (∀ el : Element, el.get_decendants_at_depth 1 = some el.children) ∧
    (∀ (el : Element) (d : Nat),
      el.get_decendants_at_depth (d + 2)
        = some (depth_spec_list (d + 1) el.children)) ∧
    (∀ (d : Nat) (cs : List Item),
      decendants_at_depth (d + 1) cs = some (depth_spec (d + 1) cs)) ∧
    (∀ (d : Nat) (cs : List Item),
      depth_spec_list (d + 1) cs = (cs.map (fun it =>
        match it with
        | Item.Element _ _ cs' _ => depth_spec (d + 1) cs'
        | _ => [])).flatten) ∧
    parse "<a><b><c></c></b><c></c></a>"
      = BuildResult.ok [Item.Element "a" [] nested_children false] ∧
    ((Element.mk "a" [] nested_children false).get_decendants_at_depth 1).map
      List.length = some 2 ∧
    ((Element.mk "a" [] nested_children false).get_decendants_at_depth 2).map
      List.length = some 1 := by
  refine ⟨?_, ?_, ?_, ?_, ?_, ?_, ?_, ?_⟩
  · intro el
    simp [Element.get_decendants_at_depth, decendants_at_depth]
  · intro el
    simp [Element.get_decendants_at_depth, decendants_at_depth]
  · intro el d
    show decendants_at_depth (d + 2) el.children = _
    rw [decendants_at_depth_spec (d + 1) el.children]
    simp [depth_spec]
  · exact decendants_at_depth_spec
  · intro d cs
    exact depth_spec_list_eq (d + 1) cs
  · show from_events [Event.Start "a" [], Event.Start "b" [], Event.Start "c" [],
      Event.End "c", Event.End "b", Event.Start "c" [], Event.End "c",
      Event.End "a"] = _
    simp [from_events, scan, with_nested, push_item, nested_children]
  · simp [Element.get_decendants_at_depth, decendants_at_depth, nested_children]
  · simp [Element.get_decendants_at_depth, decendants_at_depth,
      decendants_children, reduce_append, nested_children]

/-- C6: `find_descendants(predicate)` returns pre-order-by-level results:
first all direct children satisfying the predicate in child order, then
for each direct child that is an element (matched or not) that child's
own `find_descendants` results appended in child order; on the tree of
`"<element><a/><b><a/></b></element>"` with the predicate "is an element
named a" it returns exactly 2 matches, the outer `a` first, the nested
`a` second. -/
theorem C6_find_descendants :
    (∀ (p : Item → Bool) (el : Element),
      el.find_descendants p = el.children.filter p ++
        (el.children.map (fun it =>
          match it with
          | Item.Element n a cs sc => Element.find_descendants ⟨n, a, cs, sc⟩ p
          | _ => [])).flatten) ∧
    parse "<element><a/><b><a/></b></element>"
      = BuildResult.ok [Item.Element "element" [] find_children false] ∧
    Element.find_descendants ⟨"element", [], find_children, false⟩
        is_element_named_a
      = [Item.Element "a" [] [] true, Item.Element "a" [] [] true] := by
  refine ⟨?_, ?_, ?_⟩
  · intro p el
    show el.children.filter p ++ find_rest p el.children = _
    rw [find_rest_eq]
    rfl
  · show from_events [Event.Start "element" [], Event.Empty "a" [],
      Event.Start "b" [], Event.Empty "a" [], Event.End "b",
      Event.End "element"] = _
    simp [from_events, scan, with_nested, push_item, find_children]
  · simp [Element.find_descendants, find_rest, find_children,
      is_element_named_a, List.filter]

/-- C7: `stringify(nodes)` is the in-order concatenation of each node's
own rendering; a non-self-closing element renders as its start tag, then
`stringify` of its children, then its end tag `</name>`; `Comment` as
`<!--payload-->`, `CData` as `<![CDATA[payload]]>`, `DocType` as
`<!DOCTYPE payload>`, `Decl` and `PI` as `<?payload?>`, `Text` as the
raw unescaped payload. -/
theorem C7_stringify_rendering :
    (∀ xs : List Item, stringify xs = String.join (xs.map Item.render)) ∧
    (∀ (n : String) (a : List (String × String)) (cs : List Item),
      Item.render (Item.Element n a cs false)
        = get_start_tag n a ++ stringify cs ++ ("</" ++ n ++ ">")) ∧
    (∀ c : String, Item.render (Item.Comment c) = "<!--" ++ c ++ "-->") ∧
    (∀ c : String, Item.render (Item.CData c) = "<![CDATA[" ++ c ++ "]]>") ∧
    (∀ d : String, Item.render (Item.DocType d) = "<!DOCTYPE " ++ d ++ ">") ∧
    (∀ d : String, Item.render (Item.Decl d) = "<?" ++ d ++ "?>") ∧
    (∀ q : String, Item.render (Item.PI q) = "<?" ++ q ++ "?>") ∧
    (∀ s : String, Item.render (Item.Text s) = s) := by
  refine ⟨stringify_eq_join, ?_, ?_, ?_, ?_, ?_, ?_, ?_⟩
  · intro n a cs
    rw [stringify_eq_render_list]
    simp [Item.render, get_end_tag]
  all_goals intro c
  all_goals simp [Item.render]

/-- C8: parse-then-stringify round-trips the spec's example literals:
`"abc"` (one `Text`), `"<![CDATA[abcxyz]]>"` (one `CData`) and `"<a />"`
(one self-closing element). -/
theorem C8_round_trip :
    (parse "abc" = BuildResult.ok [Item.Text "abc"] ∧
      stringify [Item.Text "abc"] = "abc") ∧
    (parse "<![CDATA[abcxyz]]>" = BuildResult.ok [Item.CData "abcxyz"] ∧
      stringify [Item.CData "abcxyz"] = "<![CDATA[abcxyz]]>") ∧
    (parse "<a />" = BuildResult.ok [Item.Element "a" [] [] true] ∧
      stringify [Item.Element "a" [] [] true] = "<a />") := by
  refine ⟨⟨?_, ?_⟩, ⟨?_, ?_⟩, ⟨?_, ?_⟩⟩
  · show from_events [Event.Text "abc"] = _
    simp [from_events, push_item]
  · rw [stringify_eq_render_list]
    simp [Item.render_list, Item.render]
  · show from_events [Event.CData "abcxyz"] = _
    simp [from_events, push_item]
  · rw [stringify_eq_render_list]
    simp [Item.render_list, Item.render]
  · show from_events [Event.Empty "a" []] = _
    simp [from_events, push_item]
  · rw [stringify_eq_render_list]
    simp [Item.render_list, Item.render]
    decide

/-- C9: `get_text_content()` is the depth-first, document-order
concatenation of the payloads of every `Text` node in the subtree,
recursing into element children and contributing nothing for `Comment`,
`CData`, `DocType`, `Decl` and `PI` nodes. -/
theorem C9_text_content :
    (∀ el : Element,
      el.get_text_content = String.join (text_payloads el.children)) ∧
    (∀ (s : String) (rest : List Item),
      text_content (Item.Text s :: rest) = s ++ text_content rest) ∧
    (∀ (n : String) (a : List (String × String)) (cs : List Item)
      (sc : Bool) (rest : List Item),
      text_content (Item.Element n a cs sc :: rest)
        = text_content cs ++ text_content rest) ∧
    (∀ (c : String) (rest : List Item),
      text_content (Item.Comment c :: rest) = text_content rest) ∧
    (∀ (c : String) (rest : List Item),
      text_content (Item.CData c :: rest) = text_content rest) ∧
    (∀ (c : String) (rest : List Item),
      text_content (Item.DocType c :: rest) = text_content rest) ∧
    (∀ (c : String) (rest : List Item),
      text_content (Item.Decl c :: rest) = text_content rest) ∧
    (∀ (c : String) (rest : List Item),
      text_content (Item.PI c :: rest) = text_content rest) := by
  refine ⟨?_, ?_, ?_, ?_, ?_, ?_, ?_, ?_⟩
  · intro el
    exact text_content_join el.children
  · intro s rest
    simp [text_content]
  · intro n a cs sc rest
    simp [text_content]
  all_goals intro c rest
  all_goals simp [text_content]

/-- C10: every element with `self_closing = true` renders as exactly the
empty tag `<name attrs />`; its children are never serialized, even when
the children vector is non-empty (as after a caller appends children);
the children are consulted only when `self_closing` is false. -/
theorem C10_self_closing_render :
    (∀ (n : String) (a : List (String × String)) (cs : List Item),
      Element.render ⟨n, a, cs, true⟩ = "<" ++ n ++ attrs_string a ++ " />") ∧
    (∀ (n : String) (a : List (String × String)) (cs cs' : List Item),
      Element.render ⟨n, a, cs, true⟩ = Element.render ⟨n, a, cs', true⟩) ∧
    (∀ (n : String) (a : List (String × String)) (cs : List Item),
      Item.render (Item.Element n a cs true)
        = "<" ++ n ++ attrs_string a ++ " />") ∧
    Element.render ⟨"a", [], [Item.Text "x"], true⟩ = "<a />" := by
  refine ⟨?_, ?_, ?_, ?_⟩
  · intro n a cs
    show Element.render ⟨n, a, cs, true⟩ = _
    rw [Element.render]
    simp [insert_self_close_start_tag]
  · intro n a cs cs'
    simp [Element.render]
  · intro n a cs
    simp [Item.render, insert_self_close_start_tag]
  · decide
